import Mathlib

/-!
# Verification of the mongoose-tracker change-tracking engine

Shallow embedding of `src/index.ts` (the document change-tracking engine):
JavaScript runtime values become the inductive type `MT.Val`, the diff
engine (`trackChanges`), the array differ (`findArrayDifferences`), the
field pattern matcher (`doesFieldNameMatchPattern` / `isValidPattern`),
the reference resolver (`returnDisplayFromDocumentForValue` /
`returnDisplayFromDocumentForField` / `getDisplayName`), the history
ledger append (lodash `takeRight` on push), and the pre-save hook
(`preSaveHook`) become Lean functions.

Modelling conventions, stated once:
* JavaScript `undefined` and `null` are the distinct constructors
  `Val.undefined` and `Val.null`; `x ?? y` is `jsCoalesce`.
* Exceptions thrown by the JavaScript runtime (invalid `new ObjectId`,
  `mongoose.model` on an unregistered name, invalid `new RegExp`,
  `.map` on a non-array) are `Except.error` values of type `TrackError`.
* The database and schema metadata reachable through mongoose are an
  explicit environment `RefEnv`; asynchronous awaits are sequentialized
  in source order.
* Unbounded recursion (reference chains, document nesting) is driven by a
  `fuel : Nat` argument; `TrackError.outOfFuel` marks exhaustion, and all
  theorems are stated at sufficient fuel.
* Values are plain data: live mongoose documents (`toObject()` handles)
  do not exist in the model, so the source's normalization of a live
  document to its plain snapshot is the identity here.
-/

namespace MT

/-- A JavaScript runtime value as handled by the engine: `undefined`,
`null`, booleans, numbers (restricted to integers; the engine never does
arithmetic), strings, `Date` objects (by timestamp), arrays, and plain
objects as ordered association lists. -/
inductive Val where
  | undefined
  | null
  | bool (b : Bool)
  | num (n : Int)
  | str (s : String)
  | date (t : Int)
  | arr (elems : List Val)
  | obj (fields : List (String × Val))

/-- Flat (non-nested) encoding of `Val`, used only to derive decidable
equality: array and object spines become cons chains. -/
inductive EncVal where
  | undefined
  | null
  | bool (b : Bool)
  | num (n : Int)
  | str (s : String)
  | date (t : Int)
  | arrNil
  | arrCons (head tail : EncVal)
  | objNil
  | objCons (key : String) (value tail : EncVal)
deriving DecidableEq

mutual

/-- Encode a value into the flat representation. -/
def Val.toEnc : Val → EncVal
  | .undefined => .undefined
  | .null => .null
  | .bool b => .bool b
  | .num n => .num n
  | .str s => .str s
  | .date t => .date t
  | .arr xs => Val.listToEnc xs
  | .obj fs => Val.fieldsToEnc fs

/-- Encode an array spine. -/
def Val.listToEnc : List Val → EncVal
  | [] => .arrNil
  | x :: xs => .arrCons x.toEnc (Val.listToEnc xs)

/-- Encode an object spine. -/
def Val.fieldsToEnc : List (String × Val) → EncVal
  | [] => .objNil
  | (k, v) :: fs => .objCons k v.toEnc (Val.fieldsToEnc fs)

end

mutual

/-- Decode the flat representation (left inverse of `Val.toEnc`). -/
def EncVal.toVal : EncVal → Val
  | .undefined => .undefined
  | .null => .null
  | .bool b => .bool b
  | .num n => .num n
  | .str s => .str s
  | .date t => .date t
  | .arrNil => .arr []
  | .arrCons h t => .arr (h.toVal :: EncVal.toValList t)
  | .objNil => .obj []
  | .objCons k v t => .obj ((k, v.toVal) :: EncVal.toValFields t)

/-- Decode an array spine. -/
def EncVal.toValList : EncVal → List Val
  | .arrCons h t => h.toVal :: EncVal.toValList t
  | _ => []

/-- Decode an object spine. -/
def EncVal.toValFields : EncVal → List (String × Val)
  | .objCons k v t => (k, v.toVal) :: EncVal.toValFields t
  | _ => []

end

mutual

/-- Decoding inverts encoding on values. -/
theorem Val.toEnc_toVal : ∀ v : Val, EncVal.toVal (Val.toEnc v) = v
  | .undefined => rfl
  | .null => rfl
  | .bool _ => rfl
  | .num _ => rfl
  | .str _ => rfl
  | .date _ => rfl
  | .arr [] => rfl
  | .arr (x :: xs) => by
      show Val.arr (EncVal.toVal (Val.toEnc x) :: EncVal.toValList (Val.listToEnc xs)) = _
      rw [Val.toEnc_toVal x, Val.listToEnc_toValList xs]
  | .obj [] => rfl
  | .obj ((k, v) :: fs) => by
      show Val.obj ((k, EncVal.toVal (Val.toEnc v)) :: EncVal.toValFields (Val.fieldsToEnc fs)) = _
      rw [Val.toEnc_toVal v, Val.fieldsToEnc_toValFields fs]

/-- Decoding inverts encoding on array spines. -/
theorem Val.listToEnc_toValList : ∀ xs : List Val, EncVal.toValList (Val.listToEnc xs) = xs
  | [] => rfl
  | x :: xs => by
      show EncVal.toVal (Val.toEnc x) :: EncVal.toValList (Val.listToEnc xs) = x :: xs
      rw [Val.toEnc_toVal x, Val.listToEnc_toValList xs]

/-- Decoding inverts encoding on object spines. -/
theorem Val.fieldsToEnc_toValFields :
    ∀ fs : List (String × Val), EncVal.toValFields (Val.fieldsToEnc fs) = fs
  | [] => rfl
  | (k, v) :: fs => by
      show (k, EncVal.toVal (Val.toEnc v)) :: EncVal.toValFields (Val.fieldsToEnc fs) = (k, v) :: fs
      rw [Val.toEnc_toVal v, Val.fieldsToEnc_toValFields fs]

end

instance : DecidableEq Val := fun a b =>
  if h : Val.toEnc a = Val.toEnc b then
    .isTrue (by rw [← Val.toEnc_toVal a, ← Val.toEnc_toVal b, h])
  else
    .isFalse (fun he => h (he ▸ rfl))

/-- First binding of a key in an object's field list (JavaScript property
lookup; duplicate keys cannot arise from object literals, first wins). -/
def lookupField : List (String × Val) → String → Option Val
  | [], _ => none
  | (k, v) :: rest, key => if k = key then some v else lookupField rest key

/-- `^\d+$`: a non-empty all-digit path segment. -/
def isDigitString (s : String) : Bool := s.length > 0 && s.data.all Char.isDigit

/-- Decimal value of an all-digit segment (the index semantics of array
access through lodash `get`); `none` for anything else. Structurally
recursive stand-in for `String.toNat?`. -/
def decimalToNat? (s : String) : Option Nat :=
  if isDigitString s then
    some (s.data.foldl (fun n c => n * 10 + (c.toNat - 48)) 0)
  else none

/-- One step of lodash `get`: descend into an object by key or into an
array by a decimal index; anything else yields `undefined`. -/
def getSeg (v : Val) (seg : String) : Val :=
  match v with
  | .obj fs => (lookupField fs seg).getD .undefined
  | .arr xs =>
    match decimalToNat? seg with
    | some i => xs.getD i .undefined
    | none => .undefined
  | _ => .undefined

/-- lodash `get(doc, path)` with the path already split on `'.'`. -/
def getPath (v : Val) : List String → Val
  | [] => v
  | seg :: rest => getPath (getSeg v seg) rest

/-- Character-level splitter on `'.'` (structurally recursive so that the
kernel can evaluate it; same behavior as `String.splitOn "."`). The
accumulator holds the current segment reversed. -/
def splitOnDotChars : List Char → List Char → List String
  | [], cur => [⟨cur.reverse⟩]
  | c :: cs, cur =>
    if c = '.' then ⟨cur.reverse⟩ :: splitOnDotChars cs []
    else splitOnDotChars cs (c :: cur)

/-- Split a dotted field path the way lodash `get` and `field.split('.')`
do in the source. -/
def splitPath (s : String) : List String := splitOnDotChars s.data []

/-- Rebuild a dotted path (used where the source does template-string
concatenation such as `` `${path}.${key}` ``). -/
def pathToString (path : List String) : String := String.intercalate "." path

/-- JavaScript `a ?? b`. -/
def jsCoalesce (a b : Val) : Val :=
  match a with
  | .undefined => b
  | .null => b
  | _ => a

/-- JavaScript strict equality `===` between two engine values that
originate from distinct documents. Primitives (and `null`/`undefined`)
compare by value; dates, arrays and objects compare by reference, and the
engine only ever compares composites drawn from two different snapshot
objects, which are never reference-identical, so those compare `false`. -/
def jsStrictEq : Val → Val → Bool
  | .undefined, .undefined => true
  | .null, .null => true
  | .bool a, .bool b => a == b
  | .num a, .num b => a == b
  | .str a, .str b => a == b
  | _, _ => false

theorem jsStrictEq_implies_eq {a b : Val} (h : jsStrictEq a b = true) : a = b := by
  cases a <;> cases b <;> simp_all [jsStrictEq]

mutual

/-- JavaScript `String(v)` / `v.toString()` for the values the engine
stringifies (reference-model names and `_id` values). Arrays stringify as
comma-joined elements with `null`/`undefined` as empty strings, objects
as `[object Object]`, exactly as in JavaScript. -/
def valToString : Val → String
  | .undefined => "undefined"
  | .null => "null"
  | .bool b => cond b "true" "false"
  | .num n => toString n
  | .str s => s
  | .date t => toString t
  | .obj _ => "[object Object]"
  | .arr xs => String.intercalate "," (valToStringElems xs)

/-- Element strings for JavaScript `Array.prototype.toString`. -/
def valToStringElems : List Val → List String
  | [] => []
  | .undefined :: xs => "" :: valToStringElems xs
  | .null :: xs => "" :: valToStringElems xs
  | x :: xs => valToString x :: valToStringElems xs

end

/-- Is the character a lowercase hexadecimal digit? -/
def isHexChar (c : Char) : Bool := c.isDigit || ('a' ≤ c && c ≤ 'f')

/-- A 24-character lowercase hexadecimal string: the canonical string form
of a BSON ObjectId. -/
def isHex24 (s : String) : Bool := s.length == 24 && s.data.all isHexChar

/-- `isObjectIdValid` from the source: `ObjectId.isValid(id)` plus the
round-trip `String(new ObjectId(id)) === id.toString()`. Exactly the
canonical 24-character lowercase hex strings survive both checks (numbers
and 12-byte strings pass `isValid` but fail the round-trip; uppercase hex
round-trips to lowercase and fails). -/
def isObjectIdValid (v : Val) : Bool :=
  match v with
  | .str s => isHex24 s
  | _ => false

/-- Errors the engine can raise at runtime. `outOfFuel` is the modelling
artifact for exhausted recursion fuel; the others model JavaScript
exceptions: `bsonError` for `new Types.ObjectId` on a non-ObjectId string,
`missingSchemaError` for `mongoose.model(name)` on an unregistered name,
`regexSyntaxError` for `new RegExp` on an invalid pattern, `typeError`
for calling `.map` on a non-array, and `invalidPatternError` for the
plugin's own setup-time `throw new Error('Invalid field pattern')`. -/
inductive TrackError where
  | bsonError
  | missingSchemaError
  | regexSyntaxError
  | typeError
  | invalidPatternError
  | outOfFuel
deriving DecidableEq

instance {ε α : Type} [DecidableEq ε] [DecidableEq α] : DecidableEq (Except ε α) := fun a b =>
  match a, b with
  | .ok x, .ok y => if h : x = y then .isTrue (by rw [h]) else .isFalse (by simp [h])
  | .error x, .error y => if h : x = y then .isTrue (by rw [h]) else .isFalse (by simp [h])
  | .ok _, .error _ => .isFalse (by simp)
  | .error _, .ok _ => .isFalse (by simp)

/-- `new Types.ObjectId(v)`: `null`, `undefined` and numbers produce a
fresh/timestamp id; a canonical 24-hex string is accepted as itself; any
other value throws a BSON error. -/
def mkObjectId (v : Val) : Except TrackError Val :=
  match v with
  | .null => .ok (.str "generated")
  | .undefined => .ok (.str "generated")
  | .num _ => .ok (.str "generated")
  | .str s => if isHex24 s then .ok (.str s) else .error .bsonError
  | _ => .error .bsonError

/-- One field-level delta, as in `interfaces.ts` (`before`/`after` are
kept as `Val` since the source pushes arbitrary runtime values). -/
structure Change where
  field : String
  before : Val
  after : Val
deriving DecidableEq

/-- The `action` tag of a history record, as in `interfaces.ts`. -/
inductive HAction where
  | updated
  | created
  | deleted
  | removed
  | added
deriving DecidableEq

/-- One history record (`History` in `interfaces.ts`); the source's `at`
field is named `atTime` because `at` is a reserved word in Lean. -/
structure History where
  action : HAction
  atTime : Int
  changedBy : Val
  changes : List Change
deriving DecidableEq

/-! ## Array differ (`findArrayDifferences`) -/

/-- `normalizeItem` from the source: unwrap a live mongoose document via
`toObject()`. In the plain-data model every value is already a plain
snapshot, so normalization is the identity. -/
def normalizeItem (v : Val) : Val := v

/-- The `_id` of an element when it is "present" in the sense of the
source's loose check `item?._id != null`: property access on a non-object
yields `undefined`, and loose inequality with `null` rules out both
`null` and `undefined`. -/
def idOf (v : Val) : Option Val :=
  match v with
  | .obj fs =>
    match lookupField fs "_id" with
    | some idv => if idv = .null ∨ idv = .undefined then none else some idv
    | none => none
  | _ => none

/-- `itemsEqual` from the source: when both elements carry an `_id`,
compare the ids' string forms; otherwise lodash `isEqual` (deep
structural equality). -/
def itemsEqual (a b : Val) : Bool :=
  match idOf a, idOf b with
  | some i, some j => decide (valToString i = valToString j)
  | _, _ => decide (a = b)

theorem itemsEqual_refl (a : Val) : itemsEqual a a = true := by
  unfold itemsEqual
  cases idOf a <;> simp

/-- Result record of the array differ. -/
structure ArrayDiff where
  added : List Val
  removed : List Val
deriving DecidableEq

/-- `findArrayDifferences` from the source: normalize both arrays, then
`added` are the new elements with no `itemsEqual` counterpart in the old
array and `removed` the old elements with no counterpart in the new
array, each filter preserving its source array's order. -/
def findArrayDifferences (oldArray newArray : List Val) : ArrayDiff :=
  let normalizedOldArray := oldArray.map normalizeItem
  let normalizedNewArray := newArray.map normalizeItem
  let added := normalizedNewArray.filter
    (fun newItem => !(normalizedOldArray.any (fun oldItem => itemsEqual oldItem newItem)))
  let removed := normalizedOldArray.filter
    (fun oldItem => !(normalizedNewArray.any (fun newItem => itemsEqual oldItem newItem)))
  { added := added, removed := removed }

/-! ## Field pattern matcher -/

/-- An atom of the regular-expression fragment the source generates:
a literal character, the metacharacter `.` (any character), or the
class `\d` (any decimal digit). -/
inductive RAtom where
  | lit (c : Char)
  | anyc
  | digit
deriving DecidableEq

/-- A quantifier on an atom: exactly one, `+` (one or more), or `*`
(zero or more). -/
inductive RQuant where
  | one
  | plus
  | star
deriving DecidableEq

/-- A quantified atom. -/
abbrev RTok := RAtom × RQuant

/-- Does an atom match one character? -/
def atomMatch : RAtom → Char → Bool
  | .lit c, x => c == x
  | .anyc, _ => true
  | .digit, x => x.isDigit

/-- Fuel-driven engine for anchored regex matching with backtracking for
`+` and `*`. Every recursive call strictly decreases the combined number
of pending tokens and characters, so fuel `tokens + chars + 1` (as
supplied by `rmatch`) is always sufficient; the fuel only exists to make
the definition structurally recursive and hence kernel-computable. -/
def rmatchF : Nat → List RTok → List Char → Bool
  | 0, _, _ => false
  | _ + 1, [], [] => true
  | _ + 1, [], _ :: _ => false
  | _ + 1, (_, .one) :: _, [] => false
  | f + 1, (a, .one) :: ts, c :: cs => atomMatch a c && rmatchF f ts cs
  | _ + 1, (_, .plus) :: _, [] => false
  | f + 1, (a, .plus) :: ts, c :: cs =>
    atomMatch a c && (rmatchF f ts cs || rmatchF f ((a, .plus) :: ts) cs)
  | f + 1, (_, .star) :: ts, [] => rmatchF f ts []
  | f + 1, (a, .star) :: ts, c :: cs =>
    rmatchF f ts (c :: cs) || (atomMatch a c && rmatchF f ((a, .star) :: ts) cs)

/-- Anchored matching of a token sequence against a character list, with
backtracking for `+` and `*` (the semantics of `new RegExp('^'+p+'$')`
followed by `.test` for the fragment the source generates). -/
def rmatch (ts : List RTok) (cs : List Char) : Bool :=
  rmatchF (ts.length + cs.length + 1) ts cs

/-- Scanner/validator modelling `new RegExp` on the regex fragment the
theorems below use: escaped characters (`\d` as the digit class, any
other escaped character as a literal atom), the quantifiers `+` and `*`
(which must follow an unquantified atom — otherwise the constructor
throws "nothing to repeat", modelled by `none`), `.` as the
any-character metacharacter, and ordinary pattern characters as literal
atoms, exactly as in JavaScript. The remaining JavaScript
metacharacters (`|`, `?`, groups, character classes, brace quantifiers,
mid-pattern assertions) are NOT given their JavaScript meaning here —
the fallthrough treats them as literal atoms — so inputs containing
them lie outside the modelled fragment; every theorem stays inside the
fragment, either by evaluating at concrete inputs made of modelled
characters or under an `isPlainPatternChar` hypothesis. The accumulator
holds the tokens scanned so far in reverse. -/
def scanRegexAux : List Char → List RTok → Option (List RTok)
  | [], acc => some acc.reverse
  | '\\' :: [], _ => none
  | '\\' :: c2 :: cs', acc =>
    scanRegexAux cs' ((if c2 = 'd' then RAtom.digit else RAtom.lit c2, RQuant.one) :: acc)
  | '+' :: cs, (a, RQuant.one) :: acc' => scanRegexAux cs ((a, RQuant.plus) :: acc')
  | '+' :: _, _ => none
  | '*' :: cs, (a, RQuant.one) :: acc' => scanRegexAux cs ((a, RQuant.star) :: acc')
  | '*' :: _, _ => none
  | '.' :: cs, acc => scanRegexAux cs ((RAtom.anyc, RQuant.one) :: acc)
  | c :: cs, acc => scanRegexAux cs ((RAtom.lit c, RQuant.one) :: acc)

/-- Compile a regex source string of the fragment. -/
def scanRegex (s : String) : Option (List RTok) := scanRegexAux s.data []

/-- `pattern.replace(/\$/g, '\\d+')` from `doesFieldNameMatchPattern`. -/
def replaceDollarChars : List Char → List Char
  | [] => []
  | c :: cs =>
    if c = '$' then '\\' :: 'd' :: '+' :: replaceDollarChars cs
    else c :: replaceDollarChars cs

/-- String form of the `$` → `\d+` replacement. -/
def replaceDollar (pattern : String) : String := ⟨replaceDollarChars pattern.data⟩

/-- `s.replace(/\./g, '\\.')` from `isValidPattern`. -/
def escapeDotsChars : List Char → List Char
  | [] => []
  | c :: cs =>
    if c = '.' then '\\' :: '.' :: escapeDotsChars cs
    else c :: escapeDotsChars cs

/-- `s.replace(/\$/g, '\\$')` from `isValidPattern`. -/
def escapeDollarsChars : List Char → List Char
  | [] => []
  | c :: cs =>
    if c = '$' then '\\' :: '$' :: escapeDollarsChars cs
    else c :: escapeDollarsChars cs

/-- `doesFieldNameMatchPattern` from the source: replace every `$` with
`\d+` (dots are NOT escaped), wrap in `^...$` anchors, compile with
`new RegExp` (which throws on an invalid pattern, modelled as an error),
and test the field path against the anchored regex. -/
def doesFieldNameMatchPattern (fieldPath pattern : String) : Except TrackError Bool :=
  match scanRegex (replaceDollar pattern) with
  | none => .error .regexSyntaxError
  | some toks => .ok (rmatch toks fieldPath.data)

/-- `isValidPattern` from the source: escape dots and dollars, then try
to construct a `RegExp` from the result, catching any throw. Note it
validates this escaped string, not the `$` → `\d+` replacement that
`doesFieldNameMatchPattern` actually compiles later. -/
def isValidPattern (pattern : String) : Bool :=
  (scanRegex ⟨escapeDollarsChars (escapeDotsChars pattern.data)⟩).isSome

/-! ## History ledger -/

/-- lodash `takeRight(l, n)`: the last `n` elements of `l` (all of `l`
when `n ≥ l.length`). -/
def takeRight (l : List α) (n : Nat) : List α := l.drop (l.length - n)

/-- The ledger append performed by both hooks:
`takeRight([...ledger, record], limit)`. -/
def appendHistoryRecord (ledger : List History) (record : History) (limit : Nat) : List History :=
  takeRight (ledger ++ [record]) limit

/-- Appending a whole sequence of records one save at a time. -/
def appendAll (ledger : List History) (records : List History) (limit : Nat) : List History :=
  records.foldl (fun acc r => appendHistoryRecord acc r limit) ledger

/-! ## Reference resolver -/

/-- The mongoose world the engine talks to: `refOf doc field` is
`doc.schema.path(field)?.options?.ref` (a string model name, `null`, or
`undefined` when the path or option is absent); `modelExists` says
whether `mongoose.model(name)` is registered (when it is not, the call
throws a missing-schema error); `findById name id` is
`mongoose.model(name).findById(id)`, with `none` for a `null` result. -/
structure RefEnv where
  refOf : Val → String → Val
  modelExists : String → Bool
  findById : String → Val → Option Val

/-- `returnDisplayFromDocumentForValue` from the source: if the value is
a syntactically valid ObjectId and the field's schema metadata is not
`null` (note: an `undefined` ref passes the source's `!isNull(refModel)`
check and then `mongoose.model(undefined)` throws), fetch the referenced
document; if the fetch returns nothing, fall back to the original value,
otherwise recurse on the fetched document's `_display`. A value that is
not a valid ObjectId is returned unchanged. -/
def returnDisplayFromDocumentForValue (env : RefEnv) :
    Nat → Val → String → Val → Except TrackError Val
  | 0, _, _, _ => .error .outOfFuel
  | fuel + 1, doc, field, value =>
    if isObjectIdValid value then
      match env.refOf doc field with
      | .null => .ok value
      | refModel =>
        let mname := valToString refModel
        if env.modelExists mname then
          match env.findById mname value with
          | none => .ok value
          | some modelDoc =>
            returnDisplayFromDocumentForValue env fuel modelDoc "_display" (getSeg modelDoc "_display")
        else .error .missingSchemaError
    else .ok value

/-- `returnDisplayFromDocumentForField` from the source: same resolution
as the value form, but on total failure it falls back to
`value ?? originalField`, and a missing fetched document returns the raw
value. -/
def returnDisplayFromDocumentForField (env : RefEnv) (fuel : Nat) (doc : Val)
    (originalField field : String) (value : Val) : Except TrackError Val :=
  if isObjectIdValid value then
    match env.refOf doc field with
    | .null => .ok (jsCoalesce value (.str originalField))
    | refModel =>
      let mname := valToString refModel
      if env.modelExists mname then
        match env.findById mname value with
        | none => .ok value
        | some modelDoc =>
          returnDisplayFromDocumentForValue env fuel modelDoc "_display" (getSeg modelDoc "_display")
      else .error .missingSchemaError
  else .ok (jsCoalesce value (.str originalField))

/-- The scan from innermost to outermost array index inside
`getDisplayName`: at each index position, look for a `_display` value on
the enclosing array element and resolve it; otherwise keep looking
outward, falling back to the raw field path. -/
def gdnLoop (env : RefEnv) (fuel : Nat) (doc : Val) (field : String)
    (parts : List String) : List Nat → Except TrackError String
  | [] => .ok field
  | i :: rest =>
    let pathS := String.intercalate "." (parts.take (i + 1)) ++ "._display"
    let docValue := getPath doc (splitPath pathS)
    if docValue ≠ .undefined ∧ docValue ≠ .null then do
      let displayField ← returnDisplayFromDocumentForField env fuel doc field pathS docValue
      .ok (if displayField = .str field then field
           else valToString displayField ++ " " ++ parts.getLastD "")
    else gdnLoop env fuel doc field parts rest

/-- `getDisplayName` from the source: for a path containing array
indices, try to resolve a `_display` label from the innermost indexed
element outward; for a plain path, the display name is the path itself. -/
def getDisplayName (env : RefEnv) (fuel : Nat) (doc : Val) (field : String) :
    Except TrackError String :=
  let parts := splitPath field
  if parts.any isDigitString then
    let arrayIndices := (List.range parts.length).filter (fun i => isDigitString (parts.getD i ""))
    gdnLoop env fuel doc field parts arrayIndices.reverse
  else .ok field

/-! ## Change tracker (`trackChanges`) -/

/-- Plugin options after defaulting, as destructured at the top of
`mongooseTracker`. -/
structure Config where
  name : String
  fieldsToTrack : List String
  fieldsNotToTrack : List String
  limit : Nat

/-- The source's defaulted `fieldsNotToTrack`. -/
def defaultFieldsNotToTrack : List String :=
  ["history", "_id", "_v", "__v", "createdAt", "updatedAt", "deletedAt", "_display"]

/-- Default options: ledger under `history`, track everything except the
bookkeeping fields, keep 50 records. -/
def defaultConfig : Config :=
  { name := "history", fieldsToTrack := [], fieldsNotToTrack := defaultFieldsNotToTrack
    limit := 50 }

/-- lodash `isObject(x) && !isArray(x)` for element dispatch in the array
branches: plain objects and dates qualify. -/
def isObjectNotArray (v : Val) : Bool :=
  match v with
  | .obj _ => true
  | .date _ => true
  | _ => false

/-- The old array read in the array branch:
`get(doc, path) ?? []` (so a missing or null value becomes `[]`, but any
other non-array value survives and later crashes `.map`). -/
def oldArrayAt (doc : Val) (path : List String) : Val :=
  jsCoalesce (getPath doc path) (Val.arr [])

/-- One Change pushed per removed array element: object-like elements go
through display resolution of their `_display` (at the element's index in
the `removed` list), primitives are recorded raw; `after` is always
`null`. -/
def removedElementChange (env : RefEnv) (fuel : Nat) (doc : Val) (path : List String)
    (displayField : String) (pr : Nat × Val) : Except TrackError Change :=
  if isObjectNotArray pr.2 then do
    let valueDisplay ← returnDisplayFromDocumentForValue env fuel doc
      (pathToString path ++ "." ++ toString pr.1 ++ "._display") (getSeg pr.2 "_display")
    .ok { field := displayField, before := valueDisplay, after := .null }
  else
    .ok { field := displayField, before := pr.2, after := .null }

/-- One Change pushed per added array element, mirror image of
`removedElementChange` with `before` always `null`. -/
def addedElementChange (env : RefEnv) (fuel : Nat) (doc : Val) (path : List String)
    (displayField : String) (pr : Nat × Val) : Except TrackError Change :=
  if isObjectNotArray pr.2 then do
    let valueDisplay ← returnDisplayFromDocumentForValue env fuel doc
      (pathToString path ++ "." ++ toString pr.1 ++ "._display") (getSeg pr.2 "_display")
    .ok { field := displayField, before := .null, after := valueDisplay }
  else
    .ok { field := displayField, before := .null, after := pr.2 }

/-- `mapM` for `Except`, written out so its equations are plain. -/
def mapMEx (f : α → Except ε β) : List α → Except ε (List β)
  | [] => .ok []
  | x :: xs => do
    let y ← f x
    let ys ← mapMEx f xs
    .ok (y :: ys)

mutual

/-- `trackChanges` from the source. Dispatch on the new value:
* a plain object with a `_display` property resolves before/after
  displays and emits one Change when the raw displays differ strictly;
* a plain object without `_display` recurses into its fields (skipping
  `fieldsNotToTrack` keys), extending the path with dots and the display
  label with spaces;
* an array runs the array differ against the old value at the path,
  emitting removal Changes (action `removed`) when anything was removed,
  else addition Changes (action `added`) when anything was added;
* anything else (primitives, dates, `null`, `undefined`) emits one
  Change when the new value differs strictly from the old one, and when
  it is unchanged but the record's action is already `removed`, still
  emits a `before = value, after = null` stub. -/
def trackChanges (cfg : Config) (env : RefEnv) :
    Nat → Val → List String → Val → History → String → Except TrackError History
  | 0, _, _, _, _, _ => .error .outOfFuel
  | fuel' + 1, doc, path, Val.obj fs, h, displayField =>
    if (lookupField fs "_display").isSome then do
      let beforeDisplay := jsCoalesce (getPath doc (path ++ ["_display"])) Val.null
      let afterDisplay := jsCoalesce ((lookupField fs "_display").getD Val.undefined) Val.null
      let v1 ← returnDisplayFromDocumentForValue env fuel' doc
        (pathToString path ++ "._display") beforeDisplay
      let v2 ← returnDisplayFromDocumentForValue env fuel' doc
        (pathToString path ++ "._display") afterDisplay
      if jsStrictEq beforeDisplay afterDisplay then .ok h
      else .ok { h with changes := h.changes ++
        [{ field := displayField, before := v1, after := v2 }] }
    else
      trackFields cfg env fuel' doc path fs h displayField
  | fuel' + 1, doc, path, Val.arr newArr, h, displayField =>
    match oldArrayAt doc path with
    | .arr oldArr =>
      let diffs := findArrayDifferences oldArr newArr
      if diffs.removed.length > 0 then do
        let cs ← mapMEx (removedElementChange env fuel' doc path displayField) diffs.removed.enum
        .ok { h with action := .removed, changes := h.changes ++ cs }
      else if diffs.added.length > 0 then do
        let cs ← mapMEx (addedElementChange env fuel' doc path displayField) diffs.added.enum
        .ok { h with action := .added, changes := h.changes ++ cs }
      else .ok h
    | _ => .error .typeError
  | _ + 1, doc, path, v, h, displayField =>
    let old := getPath doc path
    if !(jsStrictEq old v) then
      .ok { h with changes := h.changes ++
        [{ field := displayField, before := jsCoalesce old .null, after := jsCoalesce v .null }] }
    else if h.action = .removed then
      .ok { h with changes := h.changes ++
        [{ field := displayField, before := jsCoalesce old .null, after := .null }] }
    else .ok h

/-- The recursion of `trackChanges` over the entries of a `_display`-less
object (the source's `Promise.all` over `Object.entries`, sequentialized
in entry order), skipping keys in `fieldsNotToTrack`. The fuel is
decremented on every step (a modelling artifact making the mutual
recursion structural); theorems quantify over sufficient fuel. -/
def trackFields (cfg : Config) (env : RefEnv) :
    Nat → Val → List String → List (String × Val) → History → String →
      Except TrackError History
  | 0, _, _, _, _, _ => .error .outOfFuel
  | _ + 1, _, _, [], h, _ => .ok h
  | fuel' + 1, doc, path, (k, v) :: rest, h, displayField => do
    let h' ←
      if cfg.fieldsNotToTrack.contains k then .ok h
      else trackChanges cfg env fuel' doc (path ++ [k]) v h (displayField ++ " " ++ k)
    trackFields cfg env fuel' doc path rest h' displayField

end

/-! ## Change-detection orchestrator (pre-save hook) -/

/-- Is the first list a prefix of the second? -/
def charsArePrefix : List Char → List Char → Bool
  | [], _ => true
  | _ :: _, [] => false
  | a :: as, b :: bs => a == b && charsArePrefix as bs

/-- Structural character-prefix test (the semantics of JavaScript
`field.startsWith(prefixStr)`, written over the character lists so the
kernel can evaluate it). -/
def strStartsWith (s pre : String) : Bool :=
  charsArePrefix pre.data s.data

/-- `fieldsToTrack.some(p => doesFieldNameMatchPattern(field, p))`:
JavaScript `some` evaluates left to right, short-circuits on the first
match, and propagates the first throw. -/
def matchesAnyPattern (field : String) : List String → Except TrackError Bool
  | [] => .ok false
  | p :: ps => do
    let b ← doesFieldNameMatchPattern field p
    if b then .ok true else matchesAnyPattern field ps

/-- `shouldTrackField` from the source: excluded prefixes win
unconditionally; an empty track list means track everything; otherwise
the field must match some configured pattern. -/
def shouldTrackField (cfg : Config) (field : String) : Except TrackError Bool :=
  if cfg.fieldsNotToTrack.any (fun nt => strStartsWith field nt) then .ok false
  else if cfg.fieldsToTrack.isEmpty then .ok true
  else matchesAnyPattern field cfg.fieldsToTrack

/-- `doc?.toObject()?._display` on an optional fetched document:
`undefined` when the document is missing or has no `_display`. -/
def optDisplay (d : Option Val) : Val :=
  match d with
  | none => .undefined
  | some doc => getSeg doc "_display"

/-- The body of the pre-save hook's `for` loop for one modified field
path. Skip untracked fields; compute the new value, resolve the display
name; when either the new or the prior value looks like an ObjectId and
the field declares a non-`null` ref, emit one foreign-key Change built
from the resolved documents' `_display` labels (note the source
constructs `new Types.ObjectId(...)` from both raw values here, which
throws on a non-ObjectId string); otherwise — only when NEITHER value
looks like an ObjectId — recurse into `trackChanges`. An ObjectId-shaped
value on a ref-less (`null`) field is silently skipped. -/
def processField (cfg : Config) (env : RefEnv) (fuel : Nat) (selfDoc beforeDoc : Val)
    (h : History) (fieldPath : String) : Except TrackError History := do
  let tracked ← shouldTrackField cfg fieldPath
  if !tracked then .ok h else
  let newValue := getPath selfDoc (splitPath fieldPath)
  let displayField ← getDisplayName env fuel selfDoc fieldPath
  let oldRaw := getPath beforeDoc (splitPath fieldPath)
  if isObjectIdValid newValue || isObjectIdValid oldRaw then
    match env.refOf selfDoc fieldPath with
    | .null => .ok h
    | refModel =>
      let mname := valToString refModel
      if env.modelExists mname then do
        let nid ← mkObjectId newValue
        let modelDoc := env.findById mname nid
        let oid ← mkObjectId oldRaw
        let oldValue := env.findById mname oid
        .ok { h with changes := h.changes ++
          [{ field := displayField
             before := jsCoalesce (optDisplay oldValue) oldRaw
             after := jsCoalesce (optDisplay modelDoc) newValue }] }
      else .error .missingSchemaError
  else
    trackChanges cfg env fuel beforeDoc (splitPath fieldPath) newValue h displayField

/-- The pre-save hook's loop over `this.modifiedPaths()`. -/
def processFields (cfg : Config) (env : RefEnv) (fuel : Nat) (selfDoc beforeDoc : Val) :
    List String → History → Except TrackError History
  | [], h => .ok h
  | p :: ps, h => do
    let h' ← processField cfg env fuel selfDoc beforeDoc h p
    processFields cfg env fuel selfDoc beforeDoc ps h'

/-- The inputs the pre-save hook reads from mongoose: whether the
document is new, the in-memory document (`this`), its directly modified
paths, the prior persisted snapshot (`findById` result, `none` when not
found), the current ledger, and the clock. -/
structure PreSaveInput where
  isNew : Bool
  selfDoc : Val
  modifiedPaths : List String
  docBeforeUpdate : Option Val
  currentHistory : List History
  now : Int

/-- The fresh history record the hook starts from:
`action: 'updated'`, the clock, `this._changedBy ?? null`, no changes. -/
def initialHistory (inp : PreSaveInput) : History :=
  { action := .updated, atTime := inp.now
    changedBy := jsCoalesce (getSeg inp.selfDoc "_changedBy") .null
    changes := [] }

/-- The `schema.pre('save', ...)` hook from the source. Result `ok none`
means the hook returned without touching the ledger; `ok (some l)` means
it set the ledger field to `l`; `error` models a thrown exception
aborting the save. -/
def preSaveHook (cfg : Config) (env : RefEnv) (fuel : Nat) (inp : PreSaveInput) :
    Except TrackError (Option (List History)) :=
  if inp.isNew then .ok none
  else
    match inp.docBeforeUpdate with
    | none => .ok none
    | some beforeDoc => do
      let h ← processFields cfg env fuel inp.selfDoc beforeDoc inp.modifiedPaths
        (initialHistory inp)
      if h.changes.isEmpty then .ok none
      else .ok (some (appendHistoryRecord inp.currentHistory h cfg.limit))

/-- The setup-time pattern validation at the top of `mongooseTracker`:
every configured pattern must pass `isValidPattern`, else the plugin
throws `Invalid field pattern` immediately. -/
def mongooseTrackerSetup (cfg : Config) : Except TrackError Unit :=
  if cfg.fieldsToTrack.all isValidPattern then .ok () else .error .invalidPatternError

/-! ## Helper lemmas -/

theorem map_normalizeItem (l : List Val) : l.map normalizeItem = l := by
  induction l with
  | nil => rfl
  | cons x xs ih => simp [normalizeItem, ih]

theorem mem_added_iff (oldA newA : List Val) (x : Val) :
    x ∈ (findArrayDifferences oldA newA).added ↔
      x ∈ newA ∧ ∀ y ∈ oldA, itemsEqual y x = false := by
  simp only [findArrayDifferences, map_normalizeItem, List.mem_filter]
  constructor
  · rintro ⟨hx, hall⟩
    refine ⟨hx, fun y hy => ?_⟩
    by_contra hne
    have hyx : itemsEqual y x = true := by
      cases hq : itemsEqual y x
      · exact absurd hq hne
      · rfl
    have hany : oldA.any (fun oldItem => itemsEqual oldItem x) = true :=
      List.any_eq_true.mpr ⟨y, hy, hyx⟩
    rw [hany] at hall
    exact Bool.noConfusion hall
  · rintro ⟨hx, hall⟩
    refine ⟨hx, ?_⟩
    cases hq : oldA.any (fun oldItem => itemsEqual oldItem x)
    · rfl
    · obtain ⟨y, hy, hyx⟩ := List.any_eq_true.mp hq
      rw [hall y hy] at hyx
      exact Bool.noConfusion hyx

theorem mem_removed_iff (oldA newA : List Val) (x : Val) :
    x ∈ (findArrayDifferences oldA newA).removed ↔
      x ∈ oldA ∧ ∀ y ∈ newA, itemsEqual x y = false := by
  simp only [findArrayDifferences, map_normalizeItem, List.mem_filter]
  constructor
  · rintro ⟨hx, hall⟩
    refine ⟨hx, fun y hy => ?_⟩
    by_contra hne
    have hxy : itemsEqual x y = true := by
      cases hq : itemsEqual x y
      · exact absurd hq hne
      · rfl
    have hany : newA.any (fun newItem => itemsEqual x newItem) = true :=
      List.any_eq_true.mpr ⟨y, hy, hxy⟩
    rw [hany] at hall
    exact Bool.noConfusion hall
  · rintro ⟨hx, hall⟩
    refine ⟨hx, ?_⟩
    cases hq : newA.any (fun newItem => itemsEqual x newItem)
    · rfl
    · obtain ⟨y, hy, hxy⟩ := List.any_eq_true.mp hq
      rw [hall y hy] at hxy
      exact Bool.noConfusion hxy

theorem added_sublist (oldA newA : List Val) :
    (findArrayDifferences oldA newA).added.Sublist newA := by
  have h : (findArrayDifferences oldA newA).added =
      newA.filter (fun newItem => !(oldA.any fun oldItem => itemsEqual oldItem newItem)) := by
    simp [findArrayDifferences, map_normalizeItem]
  rw [h]
  exact List.filter_sublist newA

theorem removed_sublist (oldA newA : List Val) :
    (findArrayDifferences oldA newA).removed.Sublist oldA := by
  have h : (findArrayDifferences oldA newA).removed =
      oldA.filter (fun oldItem => !(newA.any fun newItem => itemsEqual oldItem newItem)) := by
    simp [findArrayDifferences, map_normalizeItem]
  rw [h]
  exact List.filter_sublist oldA

theorem diff_empty_of_covered (oldA newA : List Val)
    (h1 : ∀ x ∈ newA, ∃ y ∈ oldA, itemsEqual y x = true)
    (h2 : ∀ y ∈ oldA, ∃ x ∈ newA, itemsEqual y x = true) :
    (findArrayDifferences oldA newA).added = [] ∧
    (findArrayDifferences oldA newA).removed = [] := by
  constructor
  · rcases hq : (findArrayDifferences oldA newA).added with _ | ⟨x, rest⟩
    · rfl
    · exfalso
      have hx : x ∈ (findArrayDifferences oldA newA).added := by rw [hq]; simp
      obtain ⟨hxn, hall⟩ := (mem_added_iff oldA newA x).mp hx
      obtain ⟨y, hy, hyx⟩ := h1 x hxn
      rw [hall y hy] at hyx
      exact Bool.noConfusion hyx
  · rcases hq : (findArrayDifferences oldA newA).removed with _ | ⟨x, rest⟩
    · rfl
    · exfalso
      have hx : x ∈ (findArrayDifferences oldA newA).removed := by rw [hq]; simp
      obtain ⟨hxo, hall⟩ := (mem_removed_iff oldA newA x).mp hx
      obtain ⟨y, hy, hxy⟩ := h2 x hxo
      rw [hall y hy] at hxy
      exact Bool.noConfusion hxy

/-- C2: the array differ computes an identity-aware set difference:
membership in `added`/`removed` is exactly "no equal counterpart on the
other side", the outputs preserve their source array's order (they are
sublists of the source arrays), element equality is by matching `_id`
strings when both elements carry an `_id` and by deep structural
equality otherwise, and any permutation of equal elements produces empty
`added` and `removed`. (Normalization to plain data is the identity in
the plain-data model.) -/
theorem findArrayDifferences_spec :
    (∀ oldA newA : List Val, ∀ x : Val,
      x ∈ (findArrayDifferences oldA newA).added ↔
        x ∈ newA ∧ ∀ y ∈ oldA, itemsEqual y x = false) ∧
    (∀ oldA newA : List Val, ∀ x : Val,
      x ∈ (findArrayDifferences oldA newA).removed ↔
        x ∈ oldA ∧ ∀ y ∈ newA, itemsEqual x y = false) ∧
    (∀ oldA newA : List Val,
      (findArrayDifferences oldA newA).added.Sublist newA ∧
      (findArrayDifferences oldA newA).removed.Sublist oldA) ∧
    (∀ a b i j : Val, idOf a = some i → idOf b = some j →
      (itemsEqual a b = true ↔ valToString i = valToString j)) ∧
    (∀ a b : Val, idOf a = none ∨ idOf b = none →
      (itemsEqual a b = true ↔ a = b)) ∧
    (∀ oldA newA : List Val, oldA.Perm newA →
      (findArrayDifferences oldA newA).added = [] ∧
      (findArrayDifferences oldA newA).removed = []) := by
  refine ⟨mem_added_iff, mem_removed_iff,
    fun oldA newA => ⟨added_sublist oldA newA, removed_sublist oldA newA⟩, ?_, ?_, ?_⟩
  · intro a b i j ha hb
    simp [itemsEqual, ha, hb]
  · intro a b h
    rcases h with h | h <;>
      · unfold itemsEqual
        rw [h]
        cases idOf a <;> cases idOf b <;> simp_all
  · intro oldA newA hperm
    exact diff_empty_of_covered oldA newA
      (fun x hx => ⟨x, hperm.mem_iff.mpr hx, itemsEqual_refl x⟩)
      (fun y hy => ⟨y, hperm.mem_iff.mp hy, itemsEqual_refl y⟩)

theorem findArrayDifferences_spec_witness :
    ((Val.num 2 ∈ (findArrayDifferences [Val.num 1] [Val.num 1, Val.num 2]).added ↔
      Val.num 2 ∈ [Val.num 1, Val.num 2] ∧
        ∀ y ∈ [Val.num 1], itemsEqual y (Val.num 2) = false) ∧
     (findArrayDifferences [Val.num 1] [Val.num 1, Val.num 2]).added = [Val.num 2]) ∧
    ([Val.num 1, Val.num 2].Perm [Val.num 2, Val.num 1] ∧
     (findArrayDifferences [Val.num 1, Val.num 2] [Val.num 2, Val.num 1]).added = [] ∧
     (findArrayDifferences [Val.num 1, Val.num 2] [Val.num 2, Val.num 1]).removed = []) :=
  ⟨⟨findArrayDifferences_spec.1 [Val.num 1] [Val.num 1, Val.num 2] (Val.num 2), by decide⟩,
   by decide,
   findArrayDifferences_spec.2.2.2.2.2 [Val.num 1, Val.num 2] [Val.num 2, Val.num 1] (by decide)⟩

/-- C10: the differ ignores multiplicity — when every element of each
array has some equal counterpart in the other, both `added` and
`removed` are empty, regardless of element counts. -/
theorem findArrayDifferences_ignores_multiplicity (oldA newA : List Val)
    (h1 : ∀ x ∈ newA, ∃ y ∈ oldA, itemsEqual y x = true)
    (h2 : ∀ y ∈ oldA, ∃ x ∈ newA, itemsEqual y x = true) :
    (findArrayDifferences oldA newA).added = [] ∧
    (findArrayDifferences oldA newA).removed = [] :=
  diff_empty_of_covered oldA newA h1 h2

theorem findArrayDifferences_ignores_multiplicity_witness :
    (∀ x ∈ [Val.str "a", Val.str "a"], ∃ y ∈ [Val.str "a"], itemsEqual y x = true) ∧
    (∀ y ∈ [Val.str "a"], ∃ x ∈ [Val.str "a", Val.str "a"], itemsEqual y x = true) ∧
    ((findArrayDifferences [Val.str "a"] [Val.str "a", Val.str "a"]).added = [] ∧
     (findArrayDifferences [Val.str "a"] [Val.str "a", Val.str "a"]).removed = []) :=
  ⟨by decide, by decide,
   findArrayDifferences_ignores_multiplicity [Val.str "a"] [Val.str "a", Val.str "a"]
     (by decide) (by decide)⟩

theorem takeRight_all_of_le {α : Type} (l : List α) (n : Nat) (h : l.length ≤ n) :
    takeRight l n = l := by
  simp [takeRight, Nat.sub_eq_zero_of_le h]

theorem takeRight_idem_append {α : Type} (a b : List α) (n : Nat) :
    takeRight (takeRight a n ++ b) n = takeRight (a ++ b) n := by
  rcases Nat.le_total a.length n with h | h
  · rw [takeRight_all_of_le a n h]
  · unfold takeRight
    have hlen : (a.drop (a.length - n)).length = n := by
      rw [List.length_drop]; omega
    rw [List.drop_append_eq_append_drop, List.drop_append_eq_append_drop,
      List.drop_drop]
    congr 1
    · congr 1
      simp [List.length_append, hlen]
      omega
    · congr 1
      simp [List.length_append, hlen]
      omega

theorem appendAll_eq_takeRight (L : List History) (rs : List History) (lim : Nat)
    (hne : rs ≠ []) : appendAll L rs lim = takeRight (L ++ rs) lim := by
  induction rs generalizing L with
  | nil => exact absurd rfl hne
  | cons r rs ih =>
    show appendAll (appendHistoryRecord L r lim) rs lim = _
    rcases rs with _ | ⟨r2, rs'⟩
    · show appendHistoryRecord L r lim = _
      rfl
    · rw [ih (appendHistoryRecord L r lim) (by simp)]
      unfold appendHistoryRecord
      rw [takeRight_idem_append]
      simp

theorem takeRight_append_left_cancel {α : Type} (L rs : List α) (lim : Nat)
    (h : lim ≤ rs.length) : takeRight (L ++ rs) lim = takeRight rs lim := by
  unfold takeRight
  rw [List.drop_append_eq_append_drop]
  have h1 : L.drop ((L ++ rs).length - lim) = [] := by
    apply List.drop_eq_nil_of_le
    simp [List.length_append]
    omega
  rw [h1]
  simp [List.length_append]
  congr 1
  omega

/-- C3: the ledger append is the pure function
`takeRight(ledger ++ [record], limit)`: the result is a suffix of the old
ledger with the record pushed at the end, its length is capped at
`limit`, and folding more than `limit` appends over any starting ledger
leaves exactly the `limit` most recently appended records, oldest first.
(Mutation of the input ledger is not expressible in this pure model; the
source builds a fresh array with a spread before truncating.) -/
theorem appendHistoryRecord_bounded (ledger : List History) (record : History)
    (limit : Nat) (records : List History) (hN : records.length > limit) :
    (∃ k, appendHistoryRecord ledger record limit = (ledger ++ [record]).drop k) ∧
    (appendHistoryRecord ledger record limit).length = min limit (ledger.length + 1) ∧
    appendAll ledger records limit = takeRight records limit ∧
    (appendAll ledger records limit).length = limit := by
  have hne : records ≠ [] := by
    intro h
    rw [h] at hN
    simp at hN
  have h3 : appendAll ledger records limit = takeRight records limit := by
    rw [appendAll_eq_takeRight ledger records limit hne]
    exact takeRight_append_left_cancel ledger records limit (Nat.le_of_lt hN)
  refine ⟨⟨(ledger ++ [record]).length - limit, rfl⟩, ?_, h3, ?_⟩
  · simp [appendHistoryRecord, takeRight, List.length_drop]
    omega
  · rw [h3]
    simp [takeRight, List.length_drop]
    omega

theorem appendHistoryRecord_bounded_witness :
    ([{ action := .updated, atTime := 1, changedBy := Val.null, changes := [] },
      { action := .updated, atTime := 2, changedBy := Val.null, changes := [] },
      { action := .updated, atTime := 3, changedBy := Val.null, changes := [] }] :
        List History).length > 2 ∧
    appendAll []
      [{ action := .updated, atTime := 1, changedBy := Val.null, changes := [] },
       { action := .updated, atTime := 2, changedBy := Val.null, changes := [] },
       { action := .updated, atTime := 3, changedBy := Val.null, changes := [] }] 2 =
      takeRight
        [{ action := .updated, atTime := 1, changedBy := Val.null, changes := [] },
         { action := .updated, atTime := 2, changedBy := Val.null, changes := [] },
         { action := .updated, atTime := 3, changedBy := Val.null, changes := [] }] 2 ∧
    (appendAll []
      [{ action := .updated, atTime := 1, changedBy := Val.null, changes := [] },
       { action := .updated, atTime := 2, changedBy := Val.null, changes := [] },
       { action := .updated, atTime := 3, changedBy := Val.null, changes := [] }] 2).length = 2 :=
  ⟨by decide,
   (appendHistoryRecord_bounded []
     { action := .updated, atTime := 1, changedBy := Val.null, changes := [] } 2
     [{ action := .updated, atTime := 1, changedBy := Val.null, changes := [] },
      { action := .updated, atTime := 2, changedBy := Val.null, changes := [] },
      { action := .updated, atTime := 3, changedBy := Val.null, changes := [] }]
     (by decide)).2.2.1,
   (appendHistoryRecord_bounded []
     { action := .updated, atTime := 1, changedBy := Val.null, changes := [] } 2
     [{ action := .updated, atTime := 1, changedBy := Val.null, changes := [] },
      { action := .updated, atTime := 2, changedBy := Val.null, changes := [] },
      { action := .updated, atTime := 3, changedBy := Val.null, changes := [] }]
     (by decide)).2.2.2⟩

/-- C9: the setup-time validation checks a differently escaped string
than the matcher compiled at diff time, so the pattern `"$*"` is
accepted by `mongooseTrackerSetup` (its escaped form `\$*` is a valid
regex) but `shouldTrackField` later throws a regex syntax error when it
compiles the actual matcher `^\d+*$` (a quantifier follows a
quantifier). This evaluates the code at the failing input of the C9
code-bug record. -/
theorem pattern_validation_deferred :
    mongooseTrackerSetup
      { name := "history", fieldsToTrack := ["$*"]
        fieldsNotToTrack := defaultFieldsNotToTrack, limit := 50 } = .ok () ∧
    shouldTrackField
      { name := "history", fieldsToTrack := ["$*"]
        fieldsNotToTrack := defaultFieldsNotToTrack, limit := 50 } "price" =
      .error .regexSyntaxError := by decide

/-! ## Change tracker theorems -/

theorem exceptBind_ok {ε α β : Type} (a : α) (k : α → Except ε β) :
    ((Except.ok a : Except ε α) >>= k) = k a := rfl

theorem exceptBind_error {ε α β : Type} (e : ε) (k : α → Except ε β) :
    ((Except.error e : Except ε α) >>= k) = .error e := rfl

theorem mapMEx_ok_length_forall {α β ε : Type} {f : α → Except ε β} {P : β → Prop}
    (hf : ∀ a c, f a = .ok c → P c) :
    ∀ l cs, mapMEx f l = .ok cs → cs.length = l.length ∧ ∀ c ∈ cs, P c := by
  intro l
  induction l with
  | nil =>
    intro cs h
    simp only [mapMEx] at h
    have : ([] : List β) = cs := Except.ok.inj h
    subst this
    simp
  | cons x xs ih =>
    intro cs h
    unfold mapMEx at h
    rcases hx : f x with e | y <;> rw [hx] at h
    · rw [exceptBind_error] at h
      exact Except.noConfusion h
    · rw [exceptBind_ok] at h
      rcases hxs : mapMEx f xs with e2 | ys <;> rw [hxs] at h
      · rw [exceptBind_error] at h
        exact Except.noConfusion h
      · rw [exceptBind_ok] at h
        have : y :: ys = cs := Except.ok.inj h
        subst this
        obtain ⟨hl, hp⟩ := ih ys hxs
        refine ⟨by simp [hl], ?_⟩
        intro c hc
        rcases List.mem_cons.mp hc with hc | hc
        · subst hc
          exact hf x c hx
        · exact hp c hc

theorem removedElementChange_fields (env : RefEnv) (fuel : Nat) (doc : Val)
    (path : List String) (displayField : String) (pr : Nat × Val) (c : Change)
    (h : removedElementChange env fuel doc path displayField pr = .ok c) :
    c.field = displayField ∧ c.after = Val.null := by
  unfold removedElementChange at h
  by_cases hobj : isObjectNotArray pr.2 = true
  · rw [if_pos hobj] at h
    rcases hr : returnDisplayFromDocumentForValue env fuel doc
        (pathToString path ++ "." ++ toString pr.1 ++ "._display") (getSeg pr.2 "_display")
      with e | v <;> rw [hr] at h
    · rw [exceptBind_error] at h
      exact Except.noConfusion h
    · rw [exceptBind_ok] at h
      have hc := Except.ok.inj h
      subst hc
      exact ⟨rfl, rfl⟩
  · rw [if_neg hobj] at h
    have hc := Except.ok.inj h
    subst hc
    exact ⟨rfl, rfl⟩

/-- C1: when the array differ finds both removed and added elements, the
record is classified `removed` and exactly one Change per removed
element is appended, each with `after = null`; no addition Changes are
produced in that branch. -/
theorem trackChanges_removal_priority (cfg : Config) (env : RefEnv) (fuel : Nat)
    (doc : Val) (path : List String) (newArr : List Val) (h h' : History)
    (displayField : String) (oldArr : List Val)
    (hold : oldArrayAt doc path = Val.arr oldArr)
    (hrem : (findArrayDifferences oldArr newArr).removed ≠ [])
    (hadd : (findArrayDifferences oldArr newArr).added ≠ [])
    (hres : trackChanges cfg env (fuel + 1) doc path (Val.arr newArr) h displayField = .ok h') :
    h'.action = HAction.removed ∧
    ∃ cs, h'.changes = h.changes ++ cs ∧
      cs.length = (findArrayDifferences oldArr newArr).removed.length ∧
      ∀ c ∈ cs, c.field = displayField ∧ c.after = Val.null := by
  have hlen : 0 < (findArrayDifferences oldArr newArr).removed.length :=
    List.length_pos.mpr hrem
  simp only [trackChanges] at hres
  rw [hold] at hres
  simp only [gt_iff_lt] at hres
  rw [if_pos hlen] at hres
  rcases hm : mapMEx (removedElementChange env fuel doc path displayField)
      (findArrayDifferences oldArr newArr).removed.enum with e | cs <;> rw [hm] at hres
  · rw [exceptBind_error] at hres
    exact Except.noConfusion hres
  · rw [exceptBind_ok] at hres
    have hh := Except.ok.inj hres
    subst hh
    obtain ⟨hl, hp⟩ := mapMEx_ok_length_forall
      (fun pr c hc => removedElementChange_fields env fuel doc path displayField pr c hc)
      (findArrayDifferences oldArr newArr).removed.enum cs hm
    exact ⟨rfl, cs, rfl, by rw [hl, List.enum_length], hp⟩

theorem trackChanges_removal_priority_witness :
    oldArrayAt (Val.obj [("tags", Val.arr [Val.str "a", Val.str "b"])]) ["tags"] =
      Val.arr [Val.str "a", Val.str "b"] ∧
    (findArrayDifferences [Val.str "a", Val.str "b"] [Val.str "a", Val.str "c"]).removed ≠ [] ∧
    (findArrayDifferences [Val.str "a", Val.str "b"] [Val.str "a", Val.str "c"]).added ≠ [] ∧
    ({ action := .removed, atTime := 0, changedBy := Val.null
       changes := [{ field := "tags", before := Val.str "b", after := Val.null }] } :
        History).action = HAction.removed ∧
    ∃ cs, ({ action := .removed, atTime := 0, changedBy := Val.null
             changes := [{ field := "tags", before := Val.str "b", after := Val.null }] } :
              History).changes =
        ({ action := .updated, atTime := 0, changedBy := Val.null, changes := [] } :
          History).changes ++ cs ∧
      cs.length =
        (findArrayDifferences [Val.str "a", Val.str "b"] [Val.str "a", Val.str "c"]).removed.length ∧
      ∀ c ∈ cs, c.field = "tags" ∧ c.after = Val.null :=
  ⟨by decide, by decide, by decide,
   trackChanges_removal_priority defaultConfig
     ⟨fun _ _ => .null, fun _ => false, fun _ _ => none⟩ 0
     (Val.obj [("tags", Val.arr [Val.str "a", Val.str "b"])]) ["tags"]
     [Val.str "a", Val.str "c"]
     { action := .updated, atTime := 0, changedBy := Val.null, changes := [] }
     { action := .removed, atTime := 0, changedBy := Val.null
       changes := [{ field := "tags", before := Val.str "b", after := Val.null }] }
     "tags" [Val.str "a", Val.str "b"]
     (by decide) (by decide) (by decide) (by decide)⟩

/-- C8: in the scalar branch, when the new value is strictly equal to the
prior value at the path but the record's action was already set to
`removed` by a sibling array branch, a stub Change is still emitted with
`before` the (unchanged, null-coalesced) value and `after = null`. -/
theorem trackChanges_removed_stub (cfg : Config) (env : RefEnv) (fuel : Nat)
    (doc : Val) (path : List String) (value : Val) (h : History) (displayField : String)
    (heq : jsStrictEq (getPath doc path) value = true)
    (hact : h.action = HAction.removed) :
    trackChanges cfg env (fuel + 1) doc path value h displayField =
      .ok { h with changes := h.changes ++
        [{ field := displayField, before := jsCoalesce value .null, after := .null }] } := by
  have hv := jsStrictEq_implies_eq heq
  cases value with
  | obj fs =>
    rw [hv] at heq
    exact absurd heq (by simp [jsStrictEq])
  | arr xs =>
    rw [hv] at heq
    exact absurd heq (by simp [jsStrictEq])
  | undefined => simp [trackChanges, heq, hact, hv, jsStrictEq]
  | null => simp [trackChanges, heq, hact, hv, jsStrictEq]
  | bool b => simp [trackChanges, heq, hact, hv, jsStrictEq]
  | num n => simp [trackChanges, heq, hact, hv, jsStrictEq]
  | str s => simp [trackChanges, heq, hact, hv, jsStrictEq]
  | date t =>
    rw [hv] at heq
    exact absurd heq (by simp [jsStrictEq])

theorem trackChanges_removed_stub_witness :
    jsStrictEq (getPath (Val.obj [("a", Val.str "x")]) ["a"]) (Val.str "x") = true ∧
    ({ action := .removed, atTime := 0, changedBy := Val.null, changes := [] } :
      History).action = HAction.removed ∧
    trackChanges defaultConfig ⟨fun _ _ => .null, fun _ => false, fun _ _ => none⟩ 1
        (Val.obj [("a", Val.str "x")]) ["a"] (Val.str "x")
        { action := .removed, atTime := 0, changedBy := Val.null, changes := [] } "a" =
      .ok { action := .removed, atTime := 0, changedBy := Val.null
            changes := [{ field := "a", before := jsCoalesce (Val.str "x") .null
                          after := .null }] } :=
  ⟨by decide, by decide,
   trackChanges_removed_stub defaultConfig
     ⟨fun _ _ => .null, fun _ => false, fun _ _ => none⟩ 0
     (Val.obj [("a", Val.str "x")]) ["a"] (Val.str "x")
     { action := .removed, atTime := 0, changedBy := Val.null, changes := [] } "a"
     (by decide) (by decide)⟩

/-- Arrays and plain objects (the values the scalar branch never
receives). -/
def isCompositeVal : Val → Bool
  | .obj _ => true
  | .arr _ => true
  | _ => false

/-- C4 counterexample: overwriting a missing (undefined) field with an
explicit `null` emits a Change whose `before` and `after` are both
`null` (and hence structurally equal): the scalar branch compares the
raw values with strict equality (`undefined !== null`), then
null-coalesces both sides into the record. -/
theorem change_both_null_counterexample :
    trackChanges defaultConfig ⟨fun _ _ => .null, fun _ => false, fun _ _ => none⟩ 1
        (Val.obj []) ["a"] Val.null
        { action := .updated, atTime := 0, changedBy := Val.null, changes := [] } "a" =
      .ok { action := .updated, atTime := 0, changedBy := Val.null
            changes := [{ field := "a", before := Val.null, after := Val.null }] } ∧
    ({ field := "a", before := Val.null, after := Val.null } : Change).before = Val.null ∧
    ({ field := "a", before := Val.null, after := Val.null } : Change).after = Val.null := by
  decide

/-- C4 (amended): in the scalar branch with the record's action not
already `removed`, a Change is emitted iff the raw prior value and the
new value differ under JavaScript strict equality (which distinguishes a
missing value from `null`); the recorded Change carries the
null-coalesced values, so its `before` and `after` can both be `null`
(e.g. missing → null), and removal-branch Changes always have
`after = null`. -/
theorem trackChanges_scalar_change_iff (cfg : Config) (env : RefEnv) (fuel : Nat)
    (doc : Val) (path : List String) (value : Val) (h : History) (displayField : String)
    (hcomp : isCompositeVal value = false)
    (hact : h.action ≠ HAction.removed) :
    (jsStrictEq (getPath doc path) value = true →
      trackChanges cfg env (fuel + 1) doc path value h displayField = .ok h) ∧
    (jsStrictEq (getPath doc path) value = false →
      trackChanges cfg env (fuel + 1) doc path value h displayField =
        .ok { h with changes := h.changes ++
          [{ field := displayField, before := jsCoalesce (getPath doc path) .null
             after := jsCoalesce value .null }] }) := by
  cases value with
  | obj fs => exact absurd hcomp (by simp [isCompositeVal])
  | arr xs => exact absurd hcomp (by simp [isCompositeVal])
  | undefined =>
    constructor <;> intro heq <;> simp [trackChanges, heq, hact]
  | null =>
    constructor <;> intro heq <;> simp [trackChanges, heq, hact]
  | bool b =>
    constructor <;> intro heq <;> simp [trackChanges, heq, hact]
  | num n =>
    constructor <;> intro heq <;> simp [trackChanges, heq, hact]
  | str s =>
    constructor <;> intro heq <;> simp [trackChanges, heq, hact]
  | date t =>
    constructor <;> intro heq <;> simp [trackChanges, heq, hact]

theorem trackChanges_scalar_change_iff_witness :
    isCompositeVal (Val.str "y") = false ∧
    ({ action := .updated, atTime := 0, changedBy := Val.null, changes := [] } :
      History).action ≠ HAction.removed ∧
    jsStrictEq (getPath (Val.obj [("a", Val.str "x")]) ["a"]) (Val.str "y") = false ∧
    trackChanges defaultConfig ⟨fun _ _ => .null, fun _ => false, fun _ _ => none⟩ 1
        (Val.obj [("a", Val.str "x")]) ["a"] (Val.str "y")
        { action := .updated, atTime := 0, changedBy := Val.null, changes := [] } "a" =
      .ok { action := .updated, atTime := 0, changedBy := Val.null
            changes := [{ field := "a"
                          before := jsCoalesce (getPath (Val.obj [("a", Val.str "x")]) ["a"]) .null
                          after := jsCoalesce (Val.str "y") .null }] } :=
  ⟨by decide, by decide, by decide,
   (trackChanges_scalar_change_iff defaultConfig
     ⟨fun _ _ => .null, fun _ => false, fun _ _ => none⟩ 0
     (Val.obj [("a", Val.str "x")]) ["a"] (Val.str "y")
     { action := .updated, atTime := 0, changedBy := Val.null, changes := [] } "a"
     (by decide) (by decide)).2 (by decide)⟩

/-! ## Orchestrator theorems -/

/-- Environment for the C5 failing input: the field `supplier` declares a
reference to the registered model `Supplier`; lookups find nothing. -/
def refEnvSupplier : RefEnv :=
  { refOf := fun _ f => if f = "supplier" then .str "Supplier" else .null
    modelExists := fun n => n == "Supplier"
    findById := fun _ _ => none }

/-- C5 failing input: the in-memory document sets the ref field
`supplier` to the non-ObjectId string `"garbage"` while the persisted
snapshot holds a valid ObjectId there. -/
def preSaveCrashInput : PreSaveInput :=
  { isNew := false
    selfDoc := Val.obj [("supplier", Val.str "garbage")]
    modifiedPaths := ["supplier"]
    docBeforeUpdate := some (Val.obj [("supplier", Val.str "0123456789abcdef01234567")])
    currentHistory := []
    now := 0 }

/-- C5 (code bug): the pre-save hook enters its foreign-key branch when
EITHER the new or the prior value is ObjectId-shaped, and then
unconditionally constructs `new Types.ObjectId(newValue)`; with a
non-ObjectId new value and an ObjectId prior value on a ref field this
throws a BSON error out of the middle of the tracked write, instead of
falling back to the raw value as the resolution contract promises. -/
theorem preSaveHook_throws_on_unresolvable_ref_value :
    preSaveHook defaultConfig refEnvSupplier 3 preSaveCrashInput =
      .error .bsonError := by decide

/-- C7: the ledger is untouched whenever a no-op condition holds: a new
document returns immediately; a missing prior snapshot returns
immediately; and a loop that completes with an empty changes list
returns without appending. -/
theorem preSaveHook_noop_conditions (cfg : Config) (env : RefEnv) (fuel : Nat)
    (inp : PreSaveInput) :
    (inp.isNew = true → preSaveHook cfg env fuel inp = .ok none) ∧
    (inp.docBeforeUpdate = none → preSaveHook cfg env fuel inp = .ok none) ∧
    (∀ beforeDoc hrec, inp.docBeforeUpdate = some beforeDoc →
      processFields cfg env fuel inp.selfDoc beforeDoc inp.modifiedPaths
        (initialHistory inp) = .ok hrec →
      hrec.changes = [] → preSaveHook cfg env fuel inp = .ok none) := by
  refine ⟨?_, ?_, ?_⟩
  · intro hnew
    simp [preSaveHook, hnew]
  · intro hmiss
    unfold preSaveHook
    cases hn : inp.isNew <;> simp [hmiss]
  · intro beforeDoc hrec hsome hproc hemp
    unfold preSaveHook
    cases hn : inp.isNew
    · simp only [Bool.false_eq_true, if_false, hsome]
      rw [hproc, exceptBind_ok]
      simp [hemp]
    · simp

theorem preSaveHook_noop_conditions_witness :
    preSaveHook defaultConfig refEnvSupplier 1
      { isNew := true, selfDoc := Val.obj [], modifiedPaths := []
        docBeforeUpdate := none, currentHistory := [], now := 0 } = .ok none ∧
    preSaveHook defaultConfig refEnvSupplier 1
      { isNew := false, selfDoc := Val.obj [], modifiedPaths := ["a"]
        docBeforeUpdate := none, currentHistory := [], now := 0 } = .ok none ∧
    preSaveHook defaultConfig refEnvSupplier 1
      { isNew := false, selfDoc := Val.obj [], modifiedPaths := []
        docBeforeUpdate := some (Val.obj []), currentHistory := [], now := 0 } = .ok none :=
  ⟨(preSaveHook_noop_conditions defaultConfig refEnvSupplier 1
      { isNew := true, selfDoc := Val.obj [], modifiedPaths := []
        docBeforeUpdate := none, currentHistory := [], now := 0 }).1 rfl,
   (preSaveHook_noop_conditions defaultConfig refEnvSupplier 1
      { isNew := false, selfDoc := Val.obj [], modifiedPaths := ["a"]
        docBeforeUpdate := none, currentHistory := [], now := 0 }).2.1 rfl,
   (preSaveHook_noop_conditions defaultConfig refEnvSupplier 1
      { isNew := false, selfDoc := Val.obj [], modifiedPaths := []
        docBeforeUpdate := some (Val.obj []), currentHistory := [], now := 0 }).2.2
     (Val.obj [])
     (initialHistory
       { isNew := false, selfDoc := Val.obj [], modifiedPaths := []
         docBeforeUpdate := some (Val.obj []), currentHistory := [], now := 0 })
     rfl rfl rfl⟩

end MT
